import Mathlib

/-!
Shallow embedding of the `lavados_semanales` repository (src/app.py, src/db.py):
a weekly vehicle-wash tracker.  Pure Lean translations of the data-integrity
core: the catalog loader, the photo-hash ledger, the wash-record store, the
submission workflow and the weekly reconciliation, followed by theorems that
settle the frozen claims about the program.

Modelling conventions:
- Python dicts whose keys are strings become association lists.
- The SQL table `lavados` becomes `List Lavado`; SQL `DELETE ... WHERE` becomes
  `List.filter`, `ORDER BY ts DESC` becomes a `mergeSort` on the timestamp.
- Timestamps are abstracted as `Nat` (only their ordering matters to the code);
  `_parse_ts` receives `Option Nat` where `none` stands for the
  missing/unparseable cases, and the ambient clock `utcnow()` is an explicit
  `now` parameter.
- Uploaded photos are represented by their SHA-256 digests (strings): the code
  only ever looks at `hashlib.sha256(bytes).hexdigest()` of the blobs.
- A stored JSON text column (`foto_hashes_json`, `fotos_json`) is modelled by
  `JField`, which distinguishes SQL NULL, the empty string, unparseable text,
  the JSON literal `null`, and a parsed string-keyed object.
-/

namespace Lavados

/-! ## String utilities (app.py: `norm`, `safe_slug`, substring tests) -/

/-- One character of `norm`'s pipeline `NFD → encode ascii ignore → lower`:
ASCII characters are kept (lowercased); the accented Latin letters appearing in
this code base decompose under NFD into their base letter plus a combining mark
that the ascii encode drops; any other non-ASCII character is dropped. -/
def foldChar (c : Char) : Option Char :=
  if c.val < 128 then some c.toLower
  else if c = 'á' ∨ c = 'Á' ∨ c = 'à' ∨ c = 'À' ∨ c = 'ä' ∨ c = 'Ä' ∨ c = 'â' ∨ c = 'Â' then some 'a'
  else if c = 'é' ∨ c = 'É' ∨ c = 'è' ∨ c = 'È' ∨ c = 'ë' ∨ c = 'Ë' ∨ c = 'ê' ∨ c = 'Ê' then some 'e'
  else if c = 'í' ∨ c = 'Í' ∨ c = 'ì' ∨ c = 'Ì' ∨ c = 'ï' ∨ c = 'Ï' ∨ c = 'î' ∨ c = 'Î' then some 'i'
  else if c = 'ó' ∨ c = 'Ó' ∨ c = 'ò' ∨ c = 'Ò' ∨ c = 'ö' ∨ c = 'Ö' ∨ c = 'ô' ∨ c = 'Ô' then some 'o'
  else if c = 'ú' ∨ c = 'Ú' ∨ c = 'ù' ∨ c = 'Ù' ∨ c = 'ü' ∨ c = 'Ü' ∨ c = 'û' ∨ c = 'Û' then some 'u'
  else if c = 'ñ' ∨ c = 'Ñ' then some 'n'
  else none

/-- Python `str.strip()` on a character list: drop whitespace at both ends. -/
def stripChars (l : List Char) : List Char :=
  ((l.dropWhile Char.isWhitespace).reverse.dropWhile Char.isWhitespace).reverse

/-- Python `str.strip()`. -/
def pyStrip (s : String) : String :=
  String.mk (stripChars s.data)

/-- app.py `norm`: NFD-normalize, drop non-ASCII, lowercase, strip. -/
def norm (s : String) : String :=
  String.mk (stripChars (s.data.filterMap foldChar))

/-- app.py `safe_slug`: `norm(s).replace(" ", "-").replace("/", "-")` (the
patterns are single characters, so the replace is per character). -/
def safe_slug (s : String) : String :=
  String.mk ((norm s).data.map (fun c => if c = ' ' ∨ c = '/' then '-' else c))

/-- `needle` is a prefix of `hay` (character lists). -/
def isPre : List Char → List Char → Bool
  | [], _ => true
  | _ :: _, [] => false
  | a :: as, b :: bs => a == b && isPre as bs

/-- `needle` occurs contiguously inside `hay` (character lists). -/
def hasSub (needle : List Char) : List Char → Bool
  | [] => isPre needle []
  | h :: hs => isPre needle (h :: hs) || hasSub needle hs

/-- Python's `needle in hay` on strings: contiguous substring test. -/
def occursIn (needle hay : String) : Bool :=
  hasSub needle.data hay.data

/-- Python truthiness of an optional string (`None` and `""` are falsy). -/
def truthyOpt (o : Option String) : Bool :=
  match o with
  | some s => s ≠ ""
  | none => false

/-- Python `a or b or ""` over two optional strings (`None`/`""` falsy). -/
def firstTruthy (a b : Option String) : String :=
  if truthyOpt a then a.getD ""
  else if truthyOpt b then b.getD ""
  else ""

/-! ## Fixed configuration (app.py `CONFIG["cedis"]`) -/

/-- The fixed depot table `CONFIG["cedis"]`, as (id, nombre) pairs. -/
def CONFIG_cedis : List (String × String) :=
  [("cartago", "Cartago"), ("alajuela", "Alajuela"), ("guapiles", "Guápiles"),
   ("Transportadora", "Transportadora"), ("Tecnicos", "Tecnicos"),
   ("San Carlos", "San Carlos"), ("Rio Claro", "Rio Claro"),
   ("Perez Zeledon", "Perez Zeledon"), ("Nicoya", "Nicoya"), ("La Cruz", "La Cruz")]

/-- app.py `cedis_id_from_any`: normalize, match id or display name against the
fixed depot table, fall back to the normalized raw value. -/
def cedis_id_from_any (val : String) : String :=
  let key := norm val
  match CONFIG_cedis.find? (fun c => norm c.1 == key || norm c.2 == key) with
  | some c => c.1
  | none => key

/-- app.py `segment_from_negocio`: keyword match on the normalized
free-text business-line label. -/
def segment_from_negocio (neg : String) : String × String :=
  let n := norm neg
  if occursIn "granel" n then ("graneles", "Granel")
  else if occursIn "cilindro" n || occursIn "hino" n then ("hinos", "Hino")
  else ("otros", "Otro")

/-! ## Catalog loader (app.py `load_catalog`) -/

/-- A raw unit descriptor from one `data/*.json` source
(`{id|placa, cedis, segmento?, tipo?, negocio?}`).  `Option` encodes an absent
key (Python `dict.get` returning `None`). -/
structure RawUnit where
  id : Option String
  placa : Option String
  cedis : String
  segmento : Option String
  tipo : Option String
  negocio : String
deriving DecidableEq, Repr

/-- A merged catalog entry `{"id": ..., "cedis": ..., "segmento": ..., "tipo": ...}`. -/
structure CatUnit where
  id : String
  cedis : String
  segmento : String
  tipo : String
deriving DecidableEq, Repr

/-- The per-raw-unit body of `load_catalog`'s inner loop: derive id (skip if
empty), depot (skip if empty), segment/type (from `negocio` when `segmento` is
falsy, then default `tipo` from the segment). -/
def procUnit (u : RawUnit) : Option CatUnit :=
  let id_ := pyStrip (firstTruthy u.id u.placa)
  if id_ = "" then none
  else
    let cedis := cedis_id_from_any u.cedis
    if cedis = "" then none
    else
      let st : String × Option String :=
        if truthyOpt u.segmento then (u.segmento.getD "", u.tipo)
        else ((segment_from_negocio u.negocio).1, some (segment_from_negocio u.negocio).2)
      let segmento := st.1
      let tipo :=
        if truthyOpt st.2 then st.2.getD ""
        else if segmento = "hinos" then "Hino"
        else if segmento = "graneles" then "Granel"
        else "Otro"
      some { id := id_, cedis := cedis, segmento := segmento, tipo := tipo }

/-- The `items` list accumulated by `load_catalog`: each source is either
`none` (failed to load or not a list: silently skipped) or a list of raw
descriptors, processed in order. -/
def catalogItems (sources : List (Option (List RawUnit))) : List CatUnit :=
  sources.flatMap (fun s =>
    match s with
    | none => []
    | some arr => arr.filterMap procUnit)

/-- Python dict assignment `d[k] = v` on an insertion-ordered association list:
overwrite in place at the key's first (with the dict invariant: only)
occurrence, keeping its position, else append. -/
def dictUpsert (d : List ((String × String) × CatUnit)) (k : String × String)
    (v : CatUnit) : List ((String × String) × CatUnit) :=
  match d with
  | [] => [(k, v)]
  | p :: ps => if p.1 == k then (k, v) :: ps else p :: dictUpsert ps k v

/-- app.py `load_catalog` (as a function of the decoded sources): process every
source's units in order, then deduplicate by `(id, cedis)` with
last-occurrence-wins dict semantics, returning the dict's values. -/
def load_catalog (sources : List (Option (List RawUnit))) : List CatUnit :=
  ((catalogItems sources).foldl (fun d u => dictUpsert d (u.id, u.cedis) u) []).map Prod.snd

/-! ## The wash-record store (db.py) -/

/-- A stored JSON text column.  `nullv` is SQL NULL, `emptyStr` the empty
string, `malformed` unparseable text (`json.loads` raises), `jnull` the JSON
literal `null` (parses to Python `None`, which is falsy), and `obj` a parsed
string-keyed object whose values are strings or JSON `null` (`Option.none`). -/
inductive JField
  | nullv
  | emptyStr
  | malformed
  | jnull
  | obj (m : List (String × Option String))
deriving DecidableEq, Repr

/-- A row of the `lavados` table (db.py `class Lavado`).  Only `supervisor_id`
can be NULL among the claim-relevant columns; the columns the code defaults to
`""` are plain strings. -/
structure Lavado where
  id : String
  week : String
  cedis : String
  supervisor_id : Option String
  supervisor_nombre : String
  unidad_id : String
  unidad_label : String
  segmento : String
  ts : Nat
  created_by : String
  fotos_json : JField
  foto_hashes_json : JField
deriving DecidableEq, Repr

/-- The record dict passed to `save_lavado` (`Option` = key absent). -/
structure RecordIn where
  id : String
  week : String
  cedis : String
  supervisorId : Option String
  supervisorNombre : Option String
  unidadId : String
  unidadLabel : Option String
  segmento : Option String
  ts : Option Nat
  created_by : Option String
  fotos : Option (List (String × String))
  foto_hashes : Option (List (String × String))
deriving DecidableEq, Repr

/-- db.py `_parse_ts`: a given timestamp is kept, a missing or unparseable one
falls back to `utcnow()` (the explicit `now`). -/
def parse_ts (now : Nat) (ts : Option Nat) : Nat :=
  ts.getD now

/-- `record["week"] == r.week and record["cedis"] == r.cedis and
record["unidadId"] == r.unidad_id`: the natural-key match used by
`save_lavado`'s delete step. -/
def natKeyMatches (week cedis unidadId : String) (r : Lavado) : Bool :=
  r.week == week && r.cedis == cedis && r.unidad_id == unidadId

/-- The row `save_lavado` inserts, with the source's defaulting:
`supervisor_nombre`, `segmento`, `created_by` default to `""`, `unidad_label`
to `record["unidadId"]`; `fotos`/`foto_hashes` are `json.dumps(... or {})`. -/
def rowOf (now : Nat) (record : RecordIn) : Lavado :=
  { id := record.id
    week := record.week
    cedis := record.cedis
    supervisor_id := record.supervisorId
    supervisor_nombre := record.supervisorNombre.getD ""
    unidad_id := record.unidadId
    unidad_label := record.unidadLabel.getD record.unidadId
    segmento := record.segmento.getD ""
    ts := parse_ts now record.ts
    created_by := record.created_by.getD ""
    fotos_json := JField.obj ((record.fotos.getD []).map (fun p => (p.1, some p.2)))
    foto_hashes_json := JField.obj ((record.foto_hashes.getD []).map (fun p => (p.1, some p.2))) }

/-- db.py `save_lavado`: upsert by (week, cedis, unidad_id) — delete every row
sharing the natural key, then insert the new row. -/
def save_lavado (now : Nat) (db : List Lavado) (record : RecordIn) : List Lavado :=
  (db.filter (fun r => !natKeyMatches record.week record.cedis record.unidadId r))
    ++ [rowOf now record]

/-- db.py `delete_lavado`: delete the rows whose `id` matches. -/
def delete_lavado (db : List Lavado) (lavado_id : String) : List Lavado :=
  db.filter (fun r => r.id ≠ lavado_id)

/-- db.py `get_lavados_week`: the rows whose `week` matches, ordered by `ts`
descending (`ORDER BY ts DESC`).  The Python function additionally projects
each row to a dict (a field renaming plus the JSON decode of the photo
columns); the claims are about which rows come back and in what order, so the
row-level result is returned.  (`ORDER BY ts DESC` is embedded as a stable
sort by `ts` descending.) -/
def get_lavados_week (db : List Lavado) (week : String) : List Lavado :=
  List.insertionSort (fun a b => b.ts ≤ a.ts) (db.filter (fun r => r.week == week))

/-- The per-row body of `photo_hashes_all`'s loop:
`json.loads(js or "{}")` applied to the stored column, `(... or {})`, then the
truthy values.  A raise (malformed text) is caught by the bare `except` and the
row contributes nothing; NULL and `""` read as `"{}"`; JSON `null` parses to
`None` and `(None or {})` is `{}`; JSON-`null` values and `""` values are
falsy, so `if h:` skips them. -/
def tryRowHashes : JField → List String
  | JField.malformed => []
  | JField.nullv => []
  | JField.emptyStr => []
  | JField.jnull => []
  | JField.obj m => (m.filterMap Prod.snd).filter (fun h => h ≠ "")

/-- db.py `photo_hashes_all`: the set of every truthy hash value of every
parseable stored photo-hash column. -/
def photo_hashes_all (db : List Lavado) : Finset String :=
  (db.flatMap (fun r => tryRowHashes r.foto_hashes_json)).toFinset

/-! ## Reconciliation (app.py main: `lavadas_set` / `faltantes`, lines 806–807) -/

/-- app.py `lavadas_set = {(r["unidadId"], r["cedis"]) for r in reg_semana}`
(kept as the list of pairs; only membership is ever used). -/
def lavadas_set (regs : List Lavado) : List (String × String) :=
  regs.map (fun r => (r.unidad_id, r.cedis))

/-- app.py `faltantes = [u for u in CATALOGO if (u["id"], u["cedis"]) not in
lavadas_set and u["cedis"] == CEDIS_RES]`. -/
def faltantes (catalogo : List CatUnit) (regs : List Lavado) (cedisRes : String) :
    List CatUnit :=
  catalogo.filter (fun u => !(lavadas_set regs).contains (u.id, u.cedis) && u.cedis == cedisRes)

/-- The washed set of the claim: (unit id, depot) pairs of the week's records
at depot `d`. -/
def washedSetAt (regs : List Lavado) (d : String) : Finset (String × String) :=
  ((regs.filter (fun r => r.cedis == d)).map (fun r => (r.unidad_id, r.cedis))).toFinset

/-- The not-washed set: key pairs of `faltantes`. -/
def notWashedSetAt (catalogo : List CatUnit) (regs : List Lavado) (d : String) :
    Finset (String × String) :=
  ((faltantes catalogo regs d).map (fun u => (u.id, u.cedis))).toFinset

/-- The catalog's key pairs at depot `d`. -/
def catalogPairsAt (catalogo : List CatUnit) (d : String) : Finset (String × String) :=
  ((catalogo.filter (fun u => u.cedis == d)).map (fun u => (u.id, u.cedis))).toFinset

/-! ## The submission workflow (app.py main, form `Guardar` handler) -/

/-- app.py `FOTO_SLOTS` keys: the four required photo roles. -/
def FOTO_SLOTS : List String := ["frente", "atras", "lado", "cabina"]

/-- The `dup_local` flag of the upload loop: walking the hashes in slot order,
set if one repeats an earlier value. -/
def dupLocalAux : List String → List String → Bool
  | _, [] => false
  | seen, h :: hs => seen.contains h || dupLocalAux (seen ++ [h]) hs

/-- `dup_local` after the loop over all four slots. -/
def dup_local (hs : List String) : Bool :=
  dupLocalAux [] hs

/-- The evidence path `save_photo` writes under
`EVIDENCE_DIR/week/safe_slug(cedis)/safe_slug(unidad)/..._slot.jpg` (the
timestamped basename is abstracted to the slot name). -/
def photoPath (week cedis unidad slot : String) : String :=
  week ++ "/" ++ safe_slug cedis ++ "/" ++ safe_slug unidad ++ "/" ++ slot

/-- Outcome of one submission attempt (the three exits of the handler). -/
inductive SubmitResult
  | duplicateInSubmission
  | duplicatePhotoReused (slots : List String)
  | saved
deriving DecidableEq, Repr

/-- The mutable state the handler touches: the `lavados` table and the set of
photo files written under the evidence tree. -/
structure AppState where
  db : List Lavado
  files : List String
deriving DecidableEq, Repr

/-- The handler's `hashes_local` dict: slot → SHA-256 of the blob uploaded for
that slot, built in slot order. -/
def hashesLocal (uploadHash : String → String) : List (String × String) :=
  FOTO_SLOTS.map (fun k => (k, uploadHash k))

/-- The handler's `repetidas` list: the slots whose hash is already a member of
`photo_hashes_all()`. -/
def repeatedSlots (db : List Lavado) (uploadHash : String → String) : List String :=
  ((hashesLocal uploadHash).filter (fun p => p.2 ∈ photo_hashes_all db)).map Prod.fst

/-- The record dict the handler builds on the success path (`segmento` comes
from the catalog lookup of the chosen unit at the chosen depot, defaulting to
`""`). -/
def submittedRecord (catalogo : List CatUnit)
    (week cedis sup supNombre unidad username recId : String)
    (uploadHash : String → String) (now : Nat) : RecordIn :=
  { id := recId, week := week, cedis := cedis
    supervisorId := some sup
    supervisorNombre := some supNombre
    unidadId := unidad
    unidadLabel := some unidad
    segmento := some (((catalogo.find? (fun x => x.id == unidad && x.cedis == cedis)).map
      CatUnit.segmento).getD "")
    ts := some now
    created_by := some username
    fotos := some (FOTO_SLOTS.map (fun k => (k, photoPath week cedis unidad k)))
    foto_hashes := some (hashesLocal uploadHash) }

/-- app.py main, the `Guardar` branch with the unit chosen and all four photos
present: hash the four uploads in slot order; stop with the local-duplicate
error if two repeat (before the global ledger is consulted, as in the code);
otherwise consult `photo_hashes_all()` and stop with the reuse error naming
the implicated slots (`repetidas`); only when both checks pass, write the four
photo files and `save_lavado` the record.  `uploadHash k` is the SHA-256 of
the blob uploaded for slot `k`. -/
def submit (catalogo : List CatUnit) (st : AppState)
    (week cedis sup supNombre unidad username recId : String)
    (uploadHash : String → String) (now : Nat) : SubmitResult × AppState :=
  if dup_local ((hashesLocal uploadHash).map Prod.snd) then
    (SubmitResult.duplicateInSubmission, st)
  else if repeatedSlots st.db uploadHash = [] then
    (SubmitResult.saved,
      { db := save_lavado now st.db
          (submittedRecord catalogo week cedis sup supNombre unidad username recId
            uploadHash now)
        files := st.files ++ FOTO_SLOTS.map (fun k => photoPath week cedis unidad k) })
  else
    (SubmitResult.duplicatePhotoReused (repeatedSlots st.db uploadHash), st)

/-! ## Week deletion (app.py `delete_week_everywhere`) -/

/-- app.py `delete_week_everywhere(week, registros_semana)`: `delete_lavado`
each record of the list it was handed (the function also `rmtree`s the week's
evidence and export folders, which is outside the record store). -/
def delete_week_everywhere (db : List Lavado) (registros_semana : List Lavado) :
    List Lavado :=
  registros_semana.foldl (fun d r => delete_lavado d r.id) db

/-! ## Spec-side definition for the refinement claim about `photo_hashes_all` -/

/-- Modelled from the spec: "the union of all truthy hash values of all
parseable records", "a malformed record is skipped and empty/null hash values
are never members".  Written from the spec's words, to be compared with the
source-derived `photo_hashes_all`. -/
def photoHashesSpec (db : List Lavado) : Finset String :=
  db.foldl (fun acc r =>
    acc ∪ (match r.foto_hashes_json with
           | JField.obj m => (m.filterMap Prod.snd).toFinset \ {""}
           | _ => ∅)) ∅

/-! ## Concrete data for witnesses and counterexamples -/

/-- A stored photo-hash column with four distinct hashes. -/
def exHashes1 : JField :=
  JField.obj [("frente", some "h1"), ("atras", some "h2"),
              ("lado", some "h3"), ("cabina", some "h4")]

/-- A week-`2025-W01` record at depot `cartago`. -/
def exRow1 : Lavado :=
  { id := "i1", week := "2025-W01", cedis := "cartago"
    supervisor_id := some "sup-miguel-gomez", supervisor_nombre := "Miguel Gomez"
    unidad_id := "U1", unidad_label := "U1", segmento := "hinos"
    ts := 5, created_by := "user1"
    fotos_json := JField.obj [], foto_hashes_json := exHashes1 }

/-- A week-`2025-W01` record at depot `alajuela`. -/
def exRow2 : Lavado :=
  { id := "i2", week := "2025-W01", cedis := "alajuela"
    supervisor_id := some "sup-roberto-vargas", supervisor_nombre := "Roberto Vargas"
    unidad_id := "U2", unidad_label := "U2", segmento := "hinos"
    ts := 7, created_by := "user2"
    fotos_json := JField.obj []
    foto_hashes_json := JField.obj [("frente", some "g1"), ("atras", some "g2"),
                                    ("lado", some "g3"), ("cabina", some "g4")] }

/-- A week-`2025-W02` record at depot `cartago`. -/
def exRow3 : Lavado :=
  { id := "i3", week := "2025-W02", cedis := "cartago"
    supervisor_id := some "sup-miguel-gomez", supervisor_nombre := "Miguel Gomez"
    unidad_id := "U1", unidad_label := "U1", segmento := "hinos"
    ts := 9, created_by := "user1"
    fotos_json := JField.obj []
    foto_hashes_json := JField.obj [("frente", some "k1"), ("atras", some "k2"),
                                    ("lado", some "k3"), ("cabina", some "k4")] }

/-- First upsert payload for the natural key (`2025-W01`, `cartago`, `U1`). -/
def exRecA : RecordIn :=
  { id := "idA", week := "2025-W01", cedis := "cartago"
    supervisorId := some "sup-miguel-gomez", supervisorNombre := some "Miguel Gomez"
    unidadId := "U1", unidadLabel := some "U1", segmento := some "hinos"
    ts := some 3, created_by := some "user1"
    fotos := some [("frente", "pa1")]
    foto_hashes := some [("frente", "a1"), ("atras", "a2"), ("lado", "a3"), ("cabina", "a4")] }

/-- Second upsert payload for the same natural key. -/
def exRecB : RecordIn :=
  { id := "idB", week := "2025-W01", cedis := "cartago"
    supervisorId := some "sup-miguel-gomez", supervisorNombre := some "Miguel Gomez"
    unidadId := "U1", unidadLabel := some "U1", segmento := some "hinos"
    ts := some 8, created_by := some "user1"
    fotos := some [("frente", "pb1")]
    foto_hashes := some [("frente", "b1"), ("atras", "b2"), ("lado", "b3"), ("cabina", "b4")] }

/-- A one-unit catalog matching `exRow1`. -/
def exCat1 : List CatUnit :=
  [{ id := "U1", cedis := "cartago", segmento := "hinos", tipo := "Hino" }]

/-- The empty app state. -/
def exSt0 : AppState := { db := [], files := [] }

/-- Upload hashes of submission A (all distinct, nonempty). -/
def exFA : String → String := fun k =>
  if k = "frente" then "a1" else if k = "atras" then "a2"
  else if k = "lado" then "a3" else "a4"

/-- Upload hashes of a second, fresh submission (all distinct, new). -/
def exFBgood : String → String := fun k =>
  if k = "frente" then "b1" else if k = "atras" then "b2"
  else if k = "lado" then "b3" else "b4"

/-- Upload hashes of a second submission whose `cabina` photo reuses
submission A's `frente` photo. -/
def exFBbad : String → String := fun k =>
  if k = "frente" then "c1" else if k = "atras" then "c2"
  else if k = "lado" then "c3" else "a1"

/-- Upload hashes with the same photo in the `frente` and `atras` slots. -/
def exFdup : String → String := fun k =>
  if k = "frente" then "x1" else if k = "atras" then "x1"
  else if k = "lado" then "x3" else "x4"

/-- The state after submission A succeeds on the empty state. -/
def exStA : AppState :=
  (submit exCat1 exSt0 "2025-W01" "cartago" "sup-miguel-gomez" "Miguel Gomez" "U1"
    "user1" "r1" exFA 3).2

/-- Upload hashes of a third submission (all distinct, new). -/
def exFC : String → String := fun k =>
  if k = "frente" then "d1" else if k = "atras" then "d2"
  else if k = "lado" then "d3" else "d4"

/-- The state after an unrelated intervening submission (unit `U2` at depot
`alajuela`, fresh hashes) succeeds on `exStA`: submission A's row is still
live in it. -/
def exStC : AppState :=
  (submit exCat1 exStA "2025-W01" "alajuela" "sup-cristian-bolanos" "Cristian Bolanos"
    "U2" "user2" "rC" exFBgood 5).2

/-! ## Lemmas about the record store -/

theorem natKeyMatches_rowOf (now : Nat) (r : RecordIn) :
    natKeyMatches r.week r.cedis r.unidadId (rowOf now r) = true := by
  simp [natKeyMatches, rowOf]

/-- One upsert: afterwards the rows matching the record's natural key are
exactly the inserted row. -/
theorem filter_key_save_lavado (now : Nat) (db : List Lavado) (r : RecordIn) :
    (save_lavado now db r).filter (natKeyMatches r.week r.cedis r.unidadId)
      = [rowOf now r] := by
  simp [save_lavado, List.filter_append, List.filter_filter, natKeyMatches_rowOf]

/-! ## C1: upsert by natural key is replace, last write wins -/

/-- C1.  For every sequence of upserts (`save_lavado` calls, each with its own
clock value) targeting the same natural key (week, cedis, unidadId), after the
sequence completes the store contains exactly one row for that key — the row
built from the last-submitted payload (each call deletes every row sharing the
key, then inserts the new one: replace, not merge). -/
theorem save_lavado_upsert_last_wins
    (ps : List (Nat × RecordIn)) (pl : Nat × RecordIn) (w c u : String) (db : List Lavado)
    (hlast : ps.getLast? = some pl)
    (hkey : ∀ p ∈ ps, p.2.week = w ∧ p.2.cedis = c ∧ p.2.unidadId = u) :
    (ps.foldl (fun d p => save_lavado p.1 d p.2) db).filter (natKeyMatches w c u)
      = [rowOf pl.1 pl.2] := by
  induction ps generalizing db with
  | nil => simp at hlast
  | cons p ps ih =>
    cases ps with
    | nil =>
      simp only [List.getLast?_singleton, Option.some.injEq] at hlast
      subst hlast
      obtain ⟨hw, hc, hu⟩ := hkey p (by simp)
      rw [← hw, ← hc, ← hu]
      exact filter_key_save_lavado p.1 db p.2
    | cons q qs =>
      rw [List.getLast?_cons_cons] at hlast
      rw [List.foldl_cons]
      exact ih _ hlast (fun x hx => hkey x (List.mem_cons_of_mem _ hx))

/-- Witness for C1: two upserts on the key (`2025-W01`, `cartago`, `U1`) over a
store that already holds an unrelated row; the key's rows end as exactly the
second payload's row. -/
theorem save_lavado_upsert_last_wins_witness :
    (([(3, exRecA), (8, exRecB)] : List (Nat × RecordIn)).getLast? = some (8, exRecB)
      ∧ ∀ p ∈ ([(3, exRecA), (8, exRecB)] : List (Nat × RecordIn)),
          p.2.week = "2025-W01" ∧ p.2.cedis = "cartago" ∧ p.2.unidadId = "U1")
    ∧ (([(3, exRecA), (8, exRecB)] : List (Nat × RecordIn)).foldl
          (fun d p => save_lavado p.1 d p.2) [exRow3]).filter
        (natKeyMatches "2025-W01" "cartago" "U1") = [rowOf 8 exRecB] := by
  refine ⟨⟨by decide, by decide⟩, ?_⟩
  exact save_lavado_upsert_last_wins [(3, exRecA), (8, exRecB)] (8, exRecB)
    "2025-W01" "cartago" "U1" [exRow3] (by decide) (by decide)

/-! ## C8: listByWeek returns the week's records, newest first -/

/-- C8.  `get_lavados_week` returns exactly the rows whose week key equals the
given week (as a permutation of the week's rows of the store) and the result is
ordered by creation timestamp descending. -/
theorem get_lavados_week_exact_sorted (db : List Lavado) (week : String) :
    (get_lavados_week db week).Perm (db.filter (fun r => r.week == week))
    ∧ (get_lavados_week db week).Pairwise (fun a b => b.ts ≤ a.ts) := by
  unfold get_lavados_week
  constructor
  · exact List.perm_insertionSort _ _
  · haveI : IsTotal Lavado (fun a b => b.ts ≤ a.ts) := ⟨fun a b => Nat.le_total b.ts a.ts⟩
    haveI : IsTrans Lavado (fun a b => b.ts ≤ a.ts) := ⟨fun a b c hab hbc => Nat.le_trans hbc hab⟩
    exact List.sorted_insertionSort _ _

/-! ## C10: photo_hashes_all is total and filtering -/

theorem mem_foldl_union {α β : Type} [DecidableEq β] (g : α → Finset β) :
    ∀ (l : List α) (acc : Finset β) (x : β),
      x ∈ l.foldl (fun acc r => acc ∪ g r) acc ↔ x ∈ acc ∨ ∃ r ∈ l, x ∈ g r := by
  intro l
  induction l with
  | nil => simp
  | cons r rs ih =>
    intro acc x
    rw [List.foldl_cons, ih]
    simp [or_assoc]

theorem tryRowHashes_spec (js : JField) (x : String) :
    x ∈ tryRowHashes js
      ↔ x ∈ (match js with
             | JField.obj m => (m.filterMap Prod.snd).toFinset \ {""}
             | _ => (∅ : Finset String)) := by
  cases js <;>
    simp [tryRowHashes, List.mem_filter, Finset.mem_sdiff, List.mem_toFinset, and_comm]

/-- C10.  `photo_hashes_all` is total over every store content — rows whose
stored photo-hash column is NULL, empty, JSON `null` or malformed contribute
nothing (a malformed row is skipped by the bare `except`) — and it returns
exactly the union of the truthy hash values of the parseable rows, so the empty
string is never a member. -/
theorem photo_hashes_all_total_filtering (db : List Lavado) :
    photo_hashes_all db = photoHashesSpec db ∧ "" ∉ photo_hashes_all db := by
  have hmem : ∀ x, x ∈ photo_hashes_all db
      ↔ ∃ r ∈ db, x ∈ tryRowHashes r.foto_hashes_json := by
    intro x
    simp [photo_hashes_all, List.mem_toFinset, List.mem_flatMap]
  constructor
  · ext x
    rw [hmem, photoHashesSpec, mem_foldl_union]
    simp only [Finset.not_mem_empty, false_or]
    constructor
    · rintro ⟨r, hr, hx⟩
      exact ⟨r, hr, (tryRowHashes_spec _ _).mp hx⟩
    · rintro ⟨r, hr, hx⟩
      exact ⟨r, hr, (tryRowHashes_spec _ _).mpr hx⟩
  · rw [hmem]
    rintro ⟨r, _, hx⟩
    rcases (tryRowHashes_spec _ _).mp hx with h
    cases hjs : r.foto_hashes_json <;> rw [hjs] at h <;> simp at h

/-! ## C3: deletion and the hash ledger -/

/-- Counterexample to C3: a store holding one record whose `frente` hash is
`h1`; after `delete_lavado` removes that record, `h1` is no longer a member of
`photo_hashes_all` — the hash is released, not permanently blocked. -/
theorem hash_released_after_delete_counterexample :
    "h1" ∈ photo_hashes_all [exRow1]
    ∧ "h1" ∉ photo_hashes_all (delete_lavado [exRow1] "i1") := by
  decide

/-- C3 amended.  `photo_hashes_all` is derived from the live rows only, so
deleting a record releases its hashes: after `delete_lavado`, a hash is a
member exactly when some surviving (different-id) row still carries it. -/
theorem photo_hashes_after_delete (db : List Lavado) (lid h : String) :
    h ∈ photo_hashes_all (delete_lavado db lid)
      ↔ ∃ r ∈ db, r.id ≠ lid ∧ h ∈ tryRowHashes r.foto_hashes_json := by
  simp [photo_hashes_all, delete_lavado, List.mem_flatMap, List.mem_filter,
    List.mem_toFinset, and_assoc]

/-- Witness for the amended C3 at a concrete two-row store. -/
theorem photo_hashes_after_delete_witness :
    "h1" ∈ photo_hashes_all (delete_lavado [exRow1, exRow2] "i2")
      ↔ ∃ r ∈ ([exRow1, exRow2] : List Lavado), r.id ≠ "i2"
          ∧ "h1" ∈ tryRowHashes r.foto_hashes_json :=
  photo_hashes_after_delete [exRow1, exRow2] "i2" "h1"

/-! ## C7: catalog dedup is last-source-wins -/

/-- Lookup in the insertion-ordered dict model. -/
def lookupD (d : List ((String × String) × CatUnit)) (k : String × String) :
    Option CatUnit :=
  (d.find? (fun p => p.1 == k)).map Prod.snd

theorem lookupD_dictUpsert (d : List ((String × String) × CatUnit))
    (k k' : String × String) (v : CatUnit) :
    lookupD (dictUpsert d k v) k' = if k' = k then some v else lookupD d k' := by
  induction d with
  | nil =>
    by_cases h : k' = k
    · simp [dictUpsert, lookupD, h]
    · simp [dictUpsert, lookupD, h, List.find?_cons, Ne.symm h]
  | cons p ps ih =>
    by_cases hpk : p.1 == k
    · rw [dictUpsert, if_pos hpk]
      by_cases h : k' = k
      · simp [lookupD, List.find?_cons, h]
      · have hp1 : (p.1 == k') = false := by
          rw [beq_eq_false_iff_ne]
          rw [beq_iff_eq] at hpk
          rw [hpk]
          exact Ne.symm h
        have hk : (k == k') = false := by
          rw [beq_eq_false_iff_ne]
          exact Ne.symm h
        simp [lookupD, List.find?_cons, h, hp1, hk]
    · rw [dictUpsert, if_neg (by simp [hpk])]
      by_cases hp1 : p.1 == k'
      · have hp1' := beq_iff_eq.mp hp1
        have h : ¬(k' = k) := by
          intro hc
          exact hpk (beq_iff_eq.mpr (by rw [hp1', hc]))
        simp [lookupD, List.find?_cons, hp1, h]
      · by_cases h : k' = k
        · simp only [lookupD, List.find?_cons, hp1, cond_false, if_pos h]
          have := ih
          rw [lookupD, lookupD] at this
          rw [this, if_pos h]
        · simp only [lookupD, List.find?_cons, hp1, cond_false, if_neg h]
          have := ih
          rw [lookupD, lookupD] at this
          rw [this, if_neg h]

theorem lookupD_foldl (items : List CatUnit) :
    ∀ (d : List ((String × String) × CatUnit)) (k : String × String),
      lookupD (items.foldl (fun d u => dictUpsert d (u.id, u.cedis) u) d) k
        = (items.reverse.find? (fun u => (u.id, u.cedis) == k)).or (lookupD d k) := by
  induction items with
  | nil =>
    intro d k
    simp
  | cons u us ih =>
    intro d k
    rw [List.foldl_cons, ih, List.reverse_cons, List.find?_append, Option.or_assoc]
    congr 1
    rw [lookupD_dictUpsert]
    by_cases h : k = (u.id, u.cedis)
    · simp [List.find?_cons, h]
    · have hb : ((u.id, u.cedis) == k) = false := by
        rw [beq_eq_false_iff_ne]
        exact Ne.symm h
      simp [List.find?_cons, h, hb]

theorem mem_keys_dictUpsert (k x : String × String) (v : CatUnit) :
    ∀ d, x ∈ (dictUpsert d k v).map Prod.fst ↔ x = k ∨ x ∈ d.map Prod.fst := by
  intro d
  induction d with
  | nil => simp [dictUpsert]
  | cons p ps ih =>
    by_cases h : p.1 == k
    · have hp := beq_iff_eq.mp h
      rw [dictUpsert, if_pos h]
      simp only [List.map_cons, List.mem_cons, hp]
      tauto
    · rw [dictUpsert, if_neg (by simp [h])]
      simp only [List.map_cons, List.mem_cons, ih]
      tauto

/-- The dict invariant: keys are pairwise distinct and each entry's key is its
value's (id, cedis). -/
def GoodDict (d : List ((String × String) × CatUnit)) : Prop :=
  (d.map Prod.fst).Nodup ∧ ∀ p ∈ d, p.1 = (p.2.id, p.2.cedis)

theorem goodDict_dictUpsert (v : CatUnit) :
    ∀ d, GoodDict d → GoodDict (dictUpsert d (v.id, v.cedis) v) := by
  intro d
  induction d with
  | nil =>
    intro _
    exact ⟨by simp [dictUpsert], by simp [dictUpsert]⟩
  | cons p ps ih =>
    rintro ⟨h1, h2⟩
    rw [List.map_cons, List.nodup_cons] at h1
    obtain ⟨hp1, hps⟩ := h1
    have hgood : GoodDict ps := ⟨hps, fun q hq => h2 q (List.mem_cons_of_mem _ hq)⟩
    by_cases hk : p.1 == (v.id, v.cedis)
    · rw [dictUpsert, if_pos hk]
      refine ⟨?_, ?_⟩
      · rw [List.map_cons, List.nodup_cons]
        refine ⟨?_, hps⟩
        rw [← beq_iff_eq.mp hk]
        exact hp1
      · rintro q hq
        rcases List.mem_cons.mp hq with hq | hq
        · rw [hq]
        · exact h2 q (List.mem_cons_of_mem _ hq)
    · rw [dictUpsert, if_neg (by simp [hk])]
      obtain ⟨ih1, ih2⟩ := ih hgood
      refine ⟨?_, ?_⟩
      · rw [List.map_cons, List.nodup_cons]
        refine ⟨?_, ih1⟩
        rw [mem_keys_dictUpsert]
        rintro (hc | hc)
        · exact absurd (beq_iff_eq.mpr hc) (by simp [hk])
        · exact hp1 hc
      · rintro q hq
        rcases List.mem_cons.mp hq with hq | hq
        · rw [hq]
          exact h2 p (List.mem_cons_self _ _)
        · exact ih2 q hq

theorem goodDict_foldl (items : List CatUnit) :
    ∀ d, GoodDict d → GoodDict (items.foldl (fun d u => dictUpsert d (u.id, u.cedis) u) d) := by
  induction items with
  | nil => intro d hd; exact hd
  | cons u us ih =>
    intro d hd
    rw [List.foldl_cons]
    exact ih _ (goodDict_dictUpsert u d hd)

theorem find?_values (k : String × String) :
    ∀ (d : List ((String × String) × CatUnit)),
      (∀ p ∈ d, p.1 = (p.2.id, p.2.cedis)) →
      (d.map Prod.snd).find? (fun u => (u.id, u.cedis) == k)
        = (d.find? (fun p => p.1 == k)).map Prod.snd := by
  intro d
  induction d with
  | nil => simp
  | cons p ps ih =>
    intro h2
    have hp := h2 p (List.mem_cons_self _ _)
    rw [List.map_cons, List.find?_cons, List.find?_cons, ← hp]
    by_cases hb : p.1 == k
    · simp [hb]
    · simp only [hb, cond_false]
      exact ih (fun q hq => h2 q (List.mem_cons_of_mem _ hq))

/-- C7.  Catalog merge is last-source-wins: the merged catalog's (id, cedis)
keys are pairwise distinct (exactly one entry per key), and for every key the
merged catalog's entry is the last raw contribution for that key in load order
(later sources overwrite earlier ones). -/
theorem load_catalog_last_source_wins (sources : List (Option (List RawUnit)))
    (k : String × String) :
    ((load_catalog sources).map (fun u => (u.id, u.cedis))).Nodup
    ∧ (load_catalog sources).find? (fun u => (u.id, u.cedis) == k)
        = (catalogItems sources).reverse.find? (fun u => (u.id, u.cedis) == k) := by
  have hgd : GoodDict ((catalogItems sources).foldl
      (fun d u => dictUpsert d (u.id, u.cedis) u) []) :=
    goodDict_foldl (catalogItems sources) [] ⟨List.nodup_nil, by simp⟩
  constructor
  · rw [load_catalog, List.map_map]
    have : ((catalogItems sources).foldl (fun d u => dictUpsert d (u.id, u.cedis) u) []).map
        ((fun u => (u.id, u.cedis)) ∘ Prod.snd)
        = ((catalogItems sources).foldl (fun d u => dictUpsert d (u.id, u.cedis) u) []).map
            Prod.fst := by
      refine List.map_congr_left ?_
      intro p hp
      exact (hgd.2 p hp).symm
    rw [this]
    exact hgd.1
  · rw [load_catalog, find?_values k _ hgd.2]
    have := lookupD_foldl (catalogItems sources) [] k
    rw [lookupD, lookupD] at this
    simpa using this

/-! ## C4: reconciliation -/

theorem mem_washedSetAt (regs : List Lavado) (d : String) (p : String × String) :
    p ∈ washedSetAt regs d
      ↔ ∃ r ∈ regs, r.cedis = d ∧ (r.unidad_id, r.cedis) = p := by
  simp [washedSetAt, List.mem_toFinset, List.mem_map, List.mem_filter, and_assoc]

theorem mem_notWashedSetAt (cat : List CatUnit) (regs : List Lavado) (d : String)
    (p : String × String) :
    p ∈ notWashedSetAt cat regs d
      ↔ ∃ u ∈ cat, ¬(∃ r ∈ regs, (r.unidad_id, r.cedis) = (u.id, u.cedis))
          ∧ u.cedis = d ∧ (u.id, u.cedis) = p := by
  simp [notWashedSetAt, faltantes, lavadas_set, List.mem_toFinset, List.mem_map,
    List.mem_filter, List.contains, List.elem_iff, and_assoc]

theorem mem_catalogPairsAt (cat : List CatUnit) (d : String) (p : String × String) :
    p ∈ catalogPairsAt cat d
      ↔ ∃ u ∈ cat, u.cedis = d ∧ (u.id, u.cedis) = p := by
  simp [catalogPairsAt, List.mem_toFinset, List.mem_map, List.mem_filter, and_assoc]

/-- Counterexample to C4 as stated: with an empty catalog and one week record
at depot `cartago` (catalog membership is not enforced at write time), the
washed set is nonempty while the catalog side is empty, so the union equation
fails. -/
theorem reconciliation_union_counterexample :
    ¬ (Disjoint (washedSetAt [exRow1] "cartago") (notWashedSetAt [] [exRow1] "cartago")
       ∧ washedSetAt [exRow1] "cartago" ∪ notWashedSetAt [] [exRow1] "cartago"
           = catalogPairsAt [] "cartago") := by
  intro h
  exact absurd h.2 (by decide)

/-- C4 amended.  Provided every washed (unit id, depot) pair of the week at
depot `d` belongs to the catalog's pairs at `d` (the system does not enforce
catalog membership at write time), the washed set and the not-washed set are
disjoint and their union is exactly the catalog's pairs at `d`. -/
theorem reconciliation_partition (cat : List CatUnit) (regs : List Lavado) (d : String)
    (h : washedSetAt regs d ⊆ catalogPairsAt cat d) :
    Disjoint (washedSetAt regs d) (notWashedSetAt cat regs d)
    ∧ washedSetAt regs d ∪ notWashedSetAt cat regs d = catalogPairsAt cat d := by
  constructor
  · rw [Finset.disjoint_left]
    intro p hw hn
    rw [mem_washedSetAt] at hw
    rw [mem_notWashedSetAt] at hn
    obtain ⟨r, hr, _, hrp⟩ := hw
    obtain ⟨u, _, hnw, _, hup⟩ := hn
    exact hnw ⟨r, hr, hrp.trans hup.symm⟩
  · ext p
    rw [Finset.mem_union, mem_washedSetAt, mem_notWashedSetAt, mem_catalogPairsAt]
    constructor
    · rintro (hw | hn)
      · have := h ((mem_washedSetAt regs d p).mpr hw)
        exact (mem_catalogPairsAt cat d p).mp this
      · obtain ⟨u, hu, _, huc, hup⟩ := hn
        exact ⟨u, hu, huc, hup⟩
    · rintro ⟨u, hu, huc, hup⟩
      by_cases hw : ∃ r ∈ regs, (r.unidad_id, r.cedis) = (u.id, u.cedis)
      · left
        obtain ⟨r, hr, hrp⟩ := hw
        have hrc : r.cedis = d := by
          have : r.cedis = u.cedis := congrArg Prod.snd hrp
          rw [this, huc]
        exact ⟨r, hr, hrc, hrp.trans hup⟩
      · right
        exact ⟨u, hu, hw, huc, hup⟩

/-- Witness for C4 amended: one catalog unit, washed by the one record. -/
theorem reconciliation_partition_witness :
    washedSetAt [exRow1] "cartago" ⊆ catalogPairsAt exCat1 "cartago"
    ∧ (Disjoint (washedSetAt [exRow1] "cartago") (notWashedSetAt exCat1 [exRow1] "cartago")
       ∧ washedSetAt [exRow1] "cartago" ∪ notWashedSetAt exCat1 [exRow1] "cartago"
           = catalogPairsAt exCat1 "cartago") := by
  refine ⟨by decide, ?_⟩
  exact reconciliation_partition exCat1 [exRow1] "cartago" (by decide)

/-! ## C5: week deletion -/

theorem delete_week_everywhere_eq_filter (regs : List Lavado) :
    ∀ db, delete_week_everywhere db regs
      = db.filter (fun x => regs.all (fun r => x.id ≠ r.id)) := by
  induction regs with
  | nil =>
    intro db
    simp [delete_week_everywhere, List.filter_true]
  | cons r rs ih =>
    intro db
    rw [delete_week_everywhere, List.foldl_cons, ← delete_week_everywhere, ih,
      delete_lavado, List.filter_filter]
    refine List.filter_congr ?_
    intro x _
    rw [List.all_cons, Bool.and_comm]

/-- Counterexample to C5 as stated: the admin view hands
`delete_week_everywhere` the *filtered* week listing (here filtered to depot
`cartago`), so the week's `alajuela` record survives and `listByWeek` is not
empty afterwards. -/
theorem delete_week_filtered_counterexample :
    get_lavados_week
        (delete_week_everywhere [exRow1, exRow2]
          ((get_lavados_week [exRow1, exRow2] "2025-W01").filter
            (fun r => r.cedis == "cartago")))
        "2025-W01" ≠ [] := by
  decide

/-- C5 amended.  When `delete_week_everywhere` is handed the full
`get_lavados_week(week)` listing (as the admin view does when all its filters
are at their all-pass defaults) and record ids are pairwise distinct, it
removes exactly the records of that week — no record of any other week — and
`listByWeek` for that week is empty afterwards. -/
theorem delete_week_everywhere_full_listing (db : List Lavado) (week : String)
    (hids : (db.map Lavado.id).Nodup) :
    delete_week_everywhere db (get_lavados_week db week)
        = db.filter (fun r => r.week ≠ week)
    ∧ get_lavados_week (delete_week_everywhere db (get_lavados_week db week)) week = [] := by
  have hmemregs : ∀ x, x ∈ get_lavados_week db week ↔ x ∈ db ∧ x.week = week := by
    intro x
    rw [get_lavados_week, (List.perm_insertionSort _ _).mem_iff]
    simp [List.mem_filter]
  have hmain : delete_week_everywhere db (get_lavados_week db week)
      = db.filter (fun r => r.week ≠ week) := by
    rw [delete_week_everywhere_eq_filter]
    refine List.filter_congr ?_
    intro x hx
    by_cases hw : x.week = week
    · have hxr : x ∈ get_lavados_week db week := (hmemregs x).mpr ⟨hx, hw⟩
      have hfalse : ((get_lavados_week db week).all (fun r => x.id ≠ r.id)) = false :=
        List.all_eq_false.mpr ⟨x, hxr, by simp⟩
      rw [hfalse, hw]
      simp
    · have htrue : ((get_lavados_week db week).all (fun r => x.id ≠ r.id)) = true := by
        rw [List.all_eq_true]
        intro r hr
        obtain ⟨hrdb, hrw⟩ := (hmemregs r).mp hr
        simp only [decide_eq_true_eq]
        intro heq
        have hxr : x = r := List.inj_on_of_nodup_map hids hx hrdb heq
        rw [hxr] at hw
        exact hw hrw
      rw [htrue]
      simp [hw]
  refine ⟨hmain, ?_⟩
  rw [hmain, get_lavados_week, List.filter_filter]
  have : (db.filter (fun a => a.week == week && decide ¬a.week = week)) = [] := by
    rw [List.filter_eq_nil_iff]
    intro a _
    simp
  rw [this]
  rfl

/-- Witness for C5 amended: a three-row store with two weeks; deleting week
`2025-W01` with its full listing leaves exactly the other week's row. -/
theorem delete_week_everywhere_full_listing_witness :
    (([exRow1, exRow2, exRow3] : List Lavado).map Lavado.id).Nodup
    ∧ (delete_week_everywhere [exRow1, exRow2, exRow3]
          (get_lavados_week [exRow1, exRow2, exRow3] "2025-W01")
        = ([exRow1, exRow2, exRow3] : List Lavado).filter (fun r => r.week ≠ "2025-W01")
      ∧ get_lavados_week (delete_week_everywhere [exRow1, exRow2, exRow3]
          (get_lavados_week [exRow1, exRow2, exRow3] "2025-W01")) "2025-W01" = []) := by
  refine ⟨by decide, ?_⟩
  exact delete_week_everywhere_full_listing [exRow1, exRow2, exRow3] "2025-W01" (by decide)

/-! ## Lemmas about the submission workflow -/

theorem repeatedSlots_eq_nil (db : List Lavado) (f : String → String) :
    repeatedSlots db f = [] ↔ ∀ k ∈ FOTO_SLOTS, f k ∉ photo_hashes_all db := by
  rw [repeatedSlots, List.map_eq_nil_iff, List.filter_eq_nil_iff]
  simp [hashesLocal]

theorem mem_repeatedSlots (db : List Lavado) (f : String → String) (k : String)
    (hk : k ∈ FOTO_SLOTS) (hmem : f k ∈ photo_hashes_all db) :
    k ∈ repeatedSlots db f := by
  rw [repeatedSlots]
  refine List.mem_map.mpr ⟨(k, f k), ?_, rfl⟩
  rw [List.mem_filter]
  exact ⟨List.mem_map.mpr ⟨k, hk, rfl⟩, by simpa using hmem⟩

/-- Inversion of a successful submission: both checks passed and the result
state holds the upserted record. -/
theorem submit_saved_inv (catalogo : List CatUnit) (st st' : AppState)
    (week cedis sup supNombre unidad username recId : String)
    (f : String → String) (now : Nat)
    (h : submit catalogo st week cedis sup supNombre unidad username recId f now
          = (SubmitResult.saved, st')) :
    dup_local ((hashesLocal f).map Prod.snd) = false
    ∧ repeatedSlots st.db f = []
    ∧ st'.db = save_lavado now st.db
        (submittedRecord catalogo week cedis sup supNombre unidad username recId f now) := by
  rw [submit] at h
  by_cases h1 : dup_local ((hashesLocal f).map Prod.snd) = true
  · rw [if_pos h1] at h
    exact absurd (congrArg Prod.fst h) (by simp)
  · rw [if_neg h1] at h
    by_cases h2 : repeatedSlots st.db f = []
    · rw [if_pos h2] at h
      refine ⟨Bool.not_eq_true _ ▸ h1, h2, ?_⟩
      have := congrArg Prod.snd h
      simp only at this
      rw [← this]
    · rw [if_neg h2] at h
      exact absurd (congrArg Prod.fst h) (by simp)

/-- A hash carried by any live row is a member of the ledger. -/
theorem mem_photo_hashes_all_of_row (db : List Lavado) (r : Lavado) (h : String)
    (hr : r ∈ db) (hh : h ∈ tryRowHashes r.foto_hashes_json) :
    h ∈ photo_hashes_all db := by
  rw [photo_hashes_all, List.mem_toFinset, List.mem_flatMap]
  exact ⟨r, hr, hh⟩

/-- The row built from a record carries each of its nonempty submitted hashes. -/
theorem mem_tryRowHashes_rowOf (now : Nat) (r : RecordIn)
    (hs : List (String × String)) (hr : r.foto_hashes = some hs)
    (k h : String) (hk : (k, h) ∈ hs) (hne : h ≠ "") :
    h ∈ tryRowHashes (rowOf now r).foto_hashes_json := by
  show h ∈ tryRowHashes (JField.obj ((r.foto_hashes.getD []).map (fun p => (p.1, some p.2))))
  rw [hr]
  simp only [Option.getD_some, tryRowHashes, List.mem_filter, List.mem_filterMap]
  refine ⟨⟨(k, some h), ?_, rfl⟩, by simpa using hne⟩
  exact List.mem_map.mpr ⟨(k, h), hk, rfl⟩

/-! ## C2: cross-submission hash reuse -/

/-- Counterexample to C2 as stated: submission A succeeds; A's record is then
deleted, which releases its hashes from the ledger (`photo_hashes_all` scans
only live rows); a later submission B that reuses A's `frente` photo in its
`cabina` slot then succeeds.  Both submissions of the pair succeed, yet a hash
of A's photo-hash map appears in B's photo-hash map. -/
theorem cross_reuse_after_delete_counterexample :
    (submit exCat1 exSt0 "2025-W01" "cartago" "sup-miguel-gomez" "Miguel Gomez" "U1"
        "user1" "r1" exFA 3).1 = SubmitResult.saved
    ∧ (submit exCat1 { db := delete_lavado exStA.db "r1", files := exStA.files }
        "2025-W02" "cartago" "sup-miguel-gomez" "Miguel Gomez" "U1" "user1" "r2"
        exFBbad 9).1 = SubmitResult.saved
    ∧ exFA "frente" = exFBbad "cabina" := by
  decide

/-- C2 amended.  First conjunct: for every pair of successful submissions A
then B — with arbitrary operations in between — as long as the row A inserted
is still live in the store when B runs (an intervening deletion or natural-key
overwrite of that row releases A's hashes), no hash of A's photo-hash map
(digests are nonempty, as every SHA-256 hex digest is) appears in B's
photo-hash map.  Second conjunct: a submission without an intra-submission
duplicate, any of whose four hashes is a member of `photo_hashes_all` at
submission time, is rejected with the reuse error naming exactly the
implicated slots (`repeatedSlots`, which contains each such slot), and the
state — records and files — is returned unchanged. -/
theorem no_hash_reuse_while_record_live :
    (∀ (catA catB : List CatUnit) (st stA st₂ : AppState)
        (wA cA sA snA uA unA rA : String) (fA : String → String) (nowA : Nat)
        (wB cB sB snB uB unB rB : String) (fB : String → String) (nowB : Nat),
        submit catA st wA cA sA snA uA unA rA fA nowA = (SubmitResult.saved, stA) →
        rowOf nowA (submittedRecord catA wA cA sA snA uA unA rA fA nowA) ∈ st₂.db →
        (submit catB st₂ wB cB sB snB uB unB rB fB nowB).1 = SubmitResult.saved →
        (∀ k ∈ FOTO_SLOTS, fA k ≠ "") →
        ∀ k ∈ FOTO_SLOTS, ∀ k' ∈ FOTO_SLOTS, fA k ≠ fB k')
    ∧ (∀ (catalogo : List CatUnit) (st : AppState)
        (w c s sn u un r : String) (f : String → String) (now : Nat) (k : String),
        k ∈ FOTO_SLOTS → f k ∈ photo_hashes_all st.db →
        dup_local ((hashesLocal f).map Prod.snd) = false →
        submit catalogo st w c s sn u un r f now
            = (SubmitResult.duplicatePhotoReused (repeatedSlots st.db f), st)
          ∧ k ∈ repeatedSlots st.db f) := by
  constructor
  · intro catA catB st stA st₂ wA cA sA snA uA unA rA fA nowA wB cB sB snB uB unB rB fB nowB
      _hA hrow hB hnz k hk k' hk'
    have hB' : submit catB st₂ wB cB sB snB uB unB rB fB nowB
        = (SubmitResult.saved, (submit catB st₂ wB cB sB snB uB unB rB fB nowB).2) := by
      rw [← hB]
    obtain ⟨_, hrepB, _⟩ := submit_saved_inv _ _ _ _ _ _ _ _ _ _ _ _ hB'
    have hnotB : fB k' ∉ photo_hashes_all st₂.db :=
      (repeatedSlots_eq_nil _ _).mp hrepB k' hk'
    have hinA : fA k ∈ photo_hashes_all st₂.db :=
      mem_photo_hashes_all_of_row st₂.db _ (fA k) hrow
        (mem_tryRowHashes_rowOf nowA _ (hashesLocal fA) rfl k (fA k)
          (List.mem_map.mpr ⟨k, hk, rfl⟩) (hnz k hk))
    intro hc
    rw [hc] at hinA
    exact hnotB hinA
  · intro catalogo st w c s sn u un r f now k hk hmem hdup
    have hkrep : k ∈ repeatedSlots st.db f := mem_repeatedSlots st.db f k hk hmem
    have hne : repeatedSlots st.db f ≠ [] := by
      intro hnil
      rw [hnil] at hkrep
      exact absurd hkrep (List.not_mem_nil k)
    refine ⟨?_, hkrep⟩
    rw [submit, if_neg (by rw [hdup]; exact Bool.false_ne_true), if_neg hne]

/-- Witness for C2 amended, with a non-adjacent pair: submission A succeeds on
the empty store; an unrelated submission on another natural key intervenes
(yielding `exStC`, in which A's row is still live); a fresh submission B then
succeeds on `exStC` and shares no hash with A.  And a submission reusing A's
`frente` hash in its `cabina` slot while A's record is live is rejected with
the reuse error naming `cabina`, leaving the state unchanged. -/
theorem no_hash_reuse_while_record_live_witness :
    (submit exCat1 exSt0 "2025-W01" "cartago" "sup-miguel-gomez" "Miguel Gomez" "U1"
        "user1" "r1" exFA 3 = (SubmitResult.saved, exStA)
      ∧ rowOf 3 (submittedRecord exCat1 "2025-W01" "cartago" "sup-miguel-gomez"
          "Miguel Gomez" "U1" "user1" "r1" exFA 3) ∈ exStC.db
      ∧ (submit exCat1 exStC "2025-W02" "cartago" "sup-miguel-gomez" "Miguel Gomez" "U1"
          "user1" "rB" exFC 9).1 = SubmitResult.saved
      ∧ (∀ k ∈ FOTO_SLOTS, exFA k ≠ "")
      ∧ exFA "frente" ≠ exFC "cabina")
    ∧ (("cabina" : String) ∈ FOTO_SLOTS
      ∧ exFBbad "cabina" ∈ photo_hashes_all exStA.db
      ∧ dup_local ((hashesLocal exFBbad).map Prod.snd) = false
      ∧ submit exCat1 exStA "2025-W01" "cartago" "sup-erick-valerin" "Erick Valerin" "U2"
            "user2" "r2" exFBbad 9
          = (SubmitResult.duplicatePhotoReused (repeatedSlots exStA.db exFBbad), exStA)
      ∧ "cabina" ∈ repeatedSlots exStA.db exFBbad) := by
  constructor
  · refine ⟨by decide, by decide, by decide, by decide, ?_⟩
    exact no_hash_reuse_while_record_live.1 exCat1 exCat1 exSt0 exStA exStC
      "2025-W01" "cartago" "sup-miguel-gomez" "Miguel Gomez" "U1" "user1" "r1" exFA 3
      "2025-W02" "cartago" "sup-miguel-gomez" "Miguel Gomez" "U1" "user1" "rB" exFC 9
      (by decide) (by decide) (by decide) (by decide) "frente" (by decide) "cabina" (by decide)
  · refine ⟨by decide, by decide, by decide, ?_⟩
    exact no_hash_reuse_while_record_live.2 exCat1 exStA "2025-W01" "cartago"
      "sup-erick-valerin" "Erick Valerin" "U2" "user2" "r2" exFBbad 9 "cabina"
      (by decide) (by decide) (by decide)

/-! ## C6: intra-submission duplicate rejected before any write -/

theorem dup_local_of_pair (f : String → String) (k k' : String)
    (hk : k ∈ FOTO_SLOTS) (hk' : k' ∈ FOTO_SLOTS) (hne : k ≠ k') (heq : f k = f k') :
    dup_local ((hashesLocal f).map Prod.snd) = true := by
  have hlist : (hashesLocal f).map Prod.snd
      = [f "frente", f "atras", f "lado", f "cabina"] := by
    simp [hashesLocal, FOTO_SLOTS]
  rw [hlist]
  simp only [FOTO_SLOTS, List.mem_cons, List.not_mem_nil, or_false] at hk hk'
  rcases hk with hk | hk | hk | hk <;> rcases hk' with hk' | hk' | hk' | hk' <;>
    subst hk <;> subst hk' <;>
    first
      | exact absurd rfl hne
      | simp [dup_local, dupLocalAux, heq]

/-- C6.  A submission two of whose four photos hash identically fails with the
intra-submission duplicate error and the state is returned unchanged — zero
records and zero files written.  The statement holds for every store state, in
particular also when the offending hash is already in the global ledger: the
local check runs before `photo_hashes_all` is consulted. -/
theorem intra_submission_duplicate_rejected (catalogo : List CatUnit) (st : AppState)
    (week cedis sup supNombre unidad username recId : String)
    (f : String → String) (now : Nat) (k k' : String)
    (hk : k ∈ FOTO_SLOTS) (hk' : k' ∈ FOTO_SLOTS) (hne : k ≠ k') (heq : f k = f k') :
    submit catalogo st week cedis sup supNombre unidad username recId f now
      = (SubmitResult.duplicateInSubmission, st) := by
  rw [submit, if_pos (dup_local_of_pair f k k' hk hk' hne heq)]

/-- Witness for C6: a submission whose `frente` and `atras` photos are the
same file is rejected with the local-duplicate error, leaving the state — here
one that already holds a record — unchanged. -/
theorem intra_submission_duplicate_rejected_witness :
    ("frente" : String) ∈ FOTO_SLOTS ∧ ("atras" : String) ∈ FOTO_SLOTS
    ∧ ("frente" : String) ≠ "atras" ∧ exFdup "frente" = exFdup "atras"
    ∧ submit exCat1 exStA "2025-W01" "cartago" "sup-miguel-gomez" "Miguel Gomez" "U1"
        "user1" "r3" exFdup 9 = (SubmitResult.duplicateInSubmission, exStA) := by
  refine ⟨by decide, by decide, by decide, by decide, ?_⟩
  exact intra_submission_duplicate_rejected exCat1 exStA "2025-W01" "cartago"
    "sup-miguel-gomez" "Miguel Gomez" "U1" "user1" "r3" exFdup 9 "frente" "atras"
    (by decide) (by decide) (by decide) (by decide)

/-! ## C9: segment derivation from the business-line label -/

/-- A raw descriptor carrying its own (truthy) segment. -/
def exRawSeg : RawUnit :=
  { id := some "C1", placa := none, cedis := "Cartago"
    segmento := some "graneles", tipo := some "Granel", negocio := "" }

/-- A raw descriptor with no segment, whose label names bulk sales. -/
def exRawNoSeg : RawUnit :=
  { id := some "C2", placa := none, cedis := "Cartago"
    segmento := none, tipo := none, negocio := "Venta a Granel" }

/-- The processed form of `exRawSeg`. -/
def exCatSeg : CatUnit :=
  { id := "C1", cedis := "cartago", segmento := "graneles", tipo := "Granel" }

/-- The processed form of `exRawNoSeg`. -/
def exCatNoSeg : CatUnit :=
  { id := "C2", cedis := "cartago", segmento := "graneles", tipo := "Granel" }

/-- C9.  After case/diacritic normalization, a label containing "granel"
yields the bulk segment (`graneles`); otherwise a label containing "cilindro"
or "hino" yields the box-truck segment (`hinos`); every other label yields
`otros`.  Moreover `load_catalog`'s per-unit processing applies this
derivation only when the raw descriptor's own segment is absent (falsy); a
truthy raw segment is kept verbatim. -/
theorem segment_derivation (neg : String) (u : RawUnit) (cu : CatUnit) :
    (occursIn "granel" (norm neg) = true →
        segment_from_negocio neg = ("graneles", "Granel"))
    ∧ (occursIn "granel" (norm neg) = false →
        (occursIn "cilindro" (norm neg) || occursIn "hino" (norm neg)) = true →
        segment_from_negocio neg = ("hinos", "Hino"))
    ∧ (occursIn "granel" (norm neg) = false →
        (occursIn "cilindro" (norm neg) || occursIn "hino" (norm neg)) = false →
        segment_from_negocio neg = ("otros", "Otro"))
    ∧ (truthyOpt u.segmento = true → procUnit u = some cu →
        cu.segmento = u.segmento.getD "")
    ∧ (truthyOpt u.segmento = false → procUnit u = some cu →
        cu.segmento = (segment_from_negocio u.negocio).1) := by
  refine ⟨?_, ?_, ?_, ?_, ?_⟩
  · intro h
    rw [segment_from_negocio, if_pos h]
  · intro h1 h2
    rw [segment_from_negocio, if_neg (by rw [h1]; exact Bool.false_ne_true), if_pos h2]
  · intro h1 h2
    rw [segment_from_negocio, if_neg (by rw [h1]; exact Bool.false_ne_true),
      if_neg (by rw [h2]; exact Bool.false_ne_true)]
  · intro ht hcu
    by_cases h1 : pyStrip (firstTruthy u.id u.placa) = ""
    · simp [procUnit, h1] at hcu
    · by_cases h2 : cedis_id_from_any u.cedis = ""
      · simp [procUnit, h1, h2] at hcu
      · simp [procUnit, h1, h2, ht] at hcu
        rw [← hcu]
  · intro ht hcu
    by_cases h1 : pyStrip (firstTruthy u.id u.placa) = ""
    · simp [procUnit, h1] at hcu
    · by_cases h2 : cedis_id_from_any u.cedis = ""
      · simp [procUnit, h1, h2] at hcu
      · simp [procUnit, h1, h2, ht] at hcu
        rw [← hcu]

/-- Witness for C9: one label per branch, plus one raw descriptor that keeps
its own segment and one that derives it from the label. -/
theorem segment_derivation_witness :
    (occursIn "granel" (norm "Venta a Granel") = true
      ∧ segment_from_negocio "Venta a Granel" = ("graneles", "Granel"))
    ∧ (occursIn "granel" (norm "Cilindros 25lb") = false
      ∧ (occursIn "cilindro" (norm "Cilindros 25lb")
          || occursIn "hino" (norm "Cilindros 25lb")) = true
      ∧ segment_from_negocio "Cilindros 25lb" = ("hinos", "Hino"))
    ∧ (occursIn "granel" (norm "reparto urbano") = false
      ∧ (occursIn "cilindro" (norm "reparto urbano")
          || occursIn "hino" (norm "reparto urbano")) = false
      ∧ segment_from_negocio "reparto urbano" = ("otros", "Otro"))
    ∧ (truthyOpt exRawSeg.segmento = true ∧ procUnit exRawSeg = some exCatSeg
      ∧ exCatSeg.segmento = exRawSeg.segmento.getD "")
    ∧ (truthyOpt exRawNoSeg.segmento = false ∧ procUnit exRawNoSeg = some exCatNoSeg
      ∧ exCatNoSeg.segmento = (segment_from_negocio exRawNoSeg.negocio).1) := by
  refine ⟨⟨by decide, ?_⟩, ⟨by decide, by decide, ?_⟩, ⟨by decide, by decide, ?_⟩,
    ⟨by decide, by decide, ?_⟩, ⟨by decide, by decide, ?_⟩⟩
  · exact (segment_derivation "Venta a Granel" exRawSeg exCatSeg).1 (by decide)
  · exact (segment_derivation "Cilindros 25lb" exRawSeg exCatSeg).2.1 (by decide) (by decide)
  · exact (segment_derivation "reparto urbano" exRawSeg exCatSeg).2.2.1 (by decide) (by decide)
  · exact (segment_derivation "" exRawSeg exCatSeg).2.2.2.1 (by decide) (by decide)
  · exact (segment_derivation "" exRawNoSeg exCatNoSeg).2.2.2.2 (by decide) (by decide)

end Lavados
